import Mathlib

/-!
Shallow embedding of the streaming response transcoder of the chat-ui
repository (module lib/ai/response-transformer.ts), together with the
auxiliary SSE parsing functions.  Upstream byte chunks are modelled after
text decoding as lists of characters (the streaming text decoder is
transparent: it preserves the concatenated character content across chunk
boundaries).  JavaScript exceptions are modelled by Option results; the
catch handlers of the source correspond to the none branches.
-/

/-- Character list of a string literal. -/
def cs (s : String) : List Char := s.data

/-- Whitespace as recognized by the JavaScript trim operation
(ASCII whitespace plus NBSP, BOM and the unicode line separators). -/
def jsWhite (c : Char) : Bool :=
  c = ' ' || c = '\t' || c = '\n' || c = '\x0d' || c = '\x0b' || c = '\x0c' ||
  c = '\u00a0' || c = '\ufeff' || c = '\u2028' || c = '\u2029'

/-- JavaScript String.prototype.trim: remove leading and trailing whitespace. -/
def jsTrim (l : List Char) : List Char :=
  ((l.dropWhile jsWhite).reverse.dropWhile jsWhite).reverse

/-- JSON values as produced by JSON.parse.  Numbers are kept exactly as
mantissa times ten to the exponent (claims never observe float rounding). -/
inductive JValue where
  | null : JValue
  | bool (b : Bool) : JValue
  | num (m : Int) (e : Int) : JValue
  | str (s : List Char) : JValue
  | arr (xs : List JValue) : JValue
  | obj (fields : List (List Char × JValue)) : JValue

/-- JavaScript truthiness of a JSON value. -/
def truthy : JValue → Bool
  | .null => false
  | .bool b => b
  | .num m _ => m ≠ 0
  | .str s => s ≠ []
  | .arr _ => true
  | .obj _ => true

/-- Truthiness of a possibly undefined value (none models undefined). -/
def truthyO : Option JValue → Bool
  | none => false
  | some v => truthy v

/-- Property lookup on an object field list; a later duplicate key wins,
matching how JSON.parse assigns duplicate keys. -/
def lookupLast (fs : List (List Char × JValue)) (k : List Char) : Option JValue :=
  fs.foldl (fun acc p => if p.1 = k then some p.2 else acc) none

/-- JavaScript property access on a (non nullish) value: only objects have
the payload properties used by the transformer. -/
def getF (v : JValue) (k : List Char) : Option JValue :=
  match v with
  | .obj fs => lookupLast fs k
  | _ => none

/-- Optional chaining access a?.k . -/
def jsGet (v : Option JValue) (k : List Char) : Option JValue :=
  match v with
  | some (.obj fs) => lookupLast fs k
  | _ => none

/-- Optional chaining index a?.[0] : first array element, the "0" property
of an object, or the first character of a string. -/
def jsIdx0 (v : Option JValue) : Option JValue :=
  match v with
  | some (.arr xs) => xs.head?
  | some (.obj fs) => lookupLast fs (cs "0")
  | some (.str (c :: _)) => some (.str [c])
  | _ => none

/-- JavaScript a || b on possibly undefined values. -/
def jsOr (a b : Option JValue) : Option JValue :=
  if truthyO a then a else b

/-! JSON.parse, modelled as a fuel based recursive descent parser over the
JSON grammar (ws, strings with escapes, numbers, literals, arrays, objects).
The fuel only needs to dominate the input length. -/

/-- JSON insignificant whitespace. -/
def jsonWs (c : Char) : Bool :=
  c = ' ' || c = '\t' || c = '\n' || c = '\x0d'

/-- Skip JSON whitespace. -/
def skipWs (s : List Char) : List Char := s.dropWhile jsonWs

/-- Value of a hexadecimal digit. -/
def hexVal (c : Char) : Option Nat :=
  if '0' ≤ c ∧ c ≤ '9' then some (c.toNat - 48)
  else if 'a' ≤ c ∧ c ≤ 'f' then some (c.toNat - 87)
  else if 'A' ≤ c ∧ c ≤ 'F' then some (c.toNat - 55)
  else none

/-- Numeric value of a digit list. -/
def digitsVal (ds : List Char) : Nat :=
  ds.foldl (fun a c => a * 10 + (c.toNat - 48)) 0

/-- Parse the body of a JSON string after the opening quote. -/
def parseStringBody : Nat → List Char → Option (List Char × List Char)
  | 0, _ => none
  | _ + 1, [] => none
  | fuel + 1, c :: rest =>
    if c = '"' then some ([], rest)
    else if c = '\\' then
      match rest with
      | [] => none
      | e :: rest2 =>
        if e = '"' then
          (parseStringBody fuel rest2).map (fun p => ('"' :: p.1, p.2))
        else if e = '\\' then
          (parseStringBody fuel rest2).map (fun p => ('\\' :: p.1, p.2))
        else if e = '/' then
          (parseStringBody fuel rest2).map (fun p => ('/' :: p.1, p.2))
        else if e = 'b' then
          (parseStringBody fuel rest2).map (fun p => ('\x08' :: p.1, p.2))
        else if e = 'f' then
          (parseStringBody fuel rest2).map (fun p => ('\x0c' :: p.1, p.2))
        else if e = 'n' then
          (parseStringBody fuel rest2).map (fun p => ('\n' :: p.1, p.2))
        else if e = 'r' then
          (parseStringBody fuel rest2).map (fun p => ('\x0d' :: p.1, p.2))
        else if e = 't' then
          (parseStringBody fuel rest2).map (fun p => ('\t' :: p.1, p.2))
        else if e = 'u' then
          match rest2 with
          | h1 :: h2 :: h3 :: h4 :: rest3 =>
            match hexVal h1, hexVal h2, hexVal h3, hexVal h4 with
            | some v1, some v2, some v3, some v4 =>
              (parseStringBody fuel rest3).map
                (fun p => (Char.ofNat (((v1 * 16 + v2) * 16 + v3) * 16 + v4) :: p.1, p.2))
            | _, _, _, _ => none
          | _ => none
        else none
    else if c.toNat < 32 then none
    else (parseStringBody fuel rest).map (fun p => (c :: p.1, p.2))

/-- Parse a JSON number (sign, integer part, optional fraction, optional
exponent), returning mantissa and decimal exponent. -/
def parseNumber (s : List Char) : Option (JValue × List Char) :=
  let (neg, s1) := match s with
    | '-' :: r => (true, r)
    | _ => (false, s)
  let ip := s1.takeWhile Char.isDigit
  let s2 := s1.dropWhile Char.isDigit
  if ip = [] then none
  else if 1 < ip.length ∧ ip.head? = some '0' then none
  else
    let fracRes : Option (List Char × List Char) := match s2 with
      | '.' :: r =>
        let fd := r.takeWhile Char.isDigit
        if fd = [] then none else some (fd, r.dropWhile Char.isDigit)
      | _ => some ([], s2)
    match fracRes with
    | none => none
    | some (fd, s3) =>
      let expRes : Option (Int × List Char) := match s3 with
        | e :: r =>
          if e = 'e' ∨ e = 'E' then
            let (eneg, r1) := match r with
              | '-' :: r2 => (true, r2)
              | '+' :: r2 => (false, r2)
              | _ => (false, r)
            let ed := r1.takeWhile Char.isDigit
            if ed = [] then none
            else
              let ev : Int := Int.ofNat (digitsVal ed)
              some (if eneg then -ev else ev, r1.dropWhile Char.isDigit)
          else some (0, s3)
        | [] => some (0, s3)
      match expRes with
      | none => none
      | some (ex, s4) =>
        let m0 : Int := Int.ofNat (digitsVal (ip ++ fd))
        let m : Int := if neg then -m0 else m0
        some (.num m (ex - Int.ofNat fd.length), s4)

/-- Mode of the recursive descent JSON parser: a value, the inside of an
object, or the inside of an array (with the members accumulated so far). -/
inductive PMode where
  | value : PMode
  | fieldsStart : PMode
  | fields (acc : List (List Char × JValue)) : PMode
  | elemsStart : PMode
  | elems (acc : List JValue) : PMode

/-- Recursive descent over the JSON grammar, fuel structured so that the
definition reduces by computation.  The fuel only needs to dominate the
input length. -/
def parseRun : Nat → PMode → List Char → Option (JValue × List Char)
  | 0, _, _ => none
  | fuel + 1, .value, s =>
    match s with
    | [] => none
    | c :: rest =>
      if c = '\x7b' then parseRun fuel .fieldsStart (skipWs rest)
      else if c = '[' then parseRun fuel .elemsStart (skipWs rest)
      else if c = '"' then
        (parseStringBody (rest.length + 1) rest).map (fun p => (.str p.1, p.2))
      else if c = 't' then
        match rest with
        | 'r' :: 'u' :: 'e' :: r => some (.bool true, r)
        | _ => none
      else if c = 'f' then
        match rest with
        | 'a' :: 'l' :: 's' :: 'e' :: r => some (.bool false, r)
        | _ => none
      else if c = 'n' then
        match rest with
        | 'u' :: 'l' :: 'l' :: r => some (.null, r)
        | _ => none
      else parseNumber (c :: rest)
  | fuel + 1, .fieldsStart, s =>
    match s with
    | '\x7d' :: r => some (.obj [], r)
    | _ => parseRun fuel (.fields []) s
  | fuel + 1, .fields acc, s =>
    match s with
    | '"' :: r =>
      match parseStringBody (r.length + 1) r with
      | none => none
      | some (key, r2) =>
        match skipWs r2 with
        | ':' :: r3 =>
          match parseRun fuel .value (skipWs r3) with
          | none => none
          | some (v, r4) =>
            match skipWs r4 with
            | ',' :: r5 => parseRun fuel (.fields ((key, v) :: acc)) (skipWs r5)
            | '\x7d' :: r5 => some (.obj ((key, v) :: acc).reverse, r5)
            | _ => none
        | _ => none
    | _ => none
  | fuel + 1, .elemsStart, s =>
    match s with
    | ']' :: r => some (.arr [], r)
    | _ => parseRun fuel (.elems []) s
  | fuel + 1, .elems acc, s =>
    match parseRun fuel .value s with
    | none => none
    | some (v, r) =>
      match skipWs r with
      | ',' :: r2 => parseRun fuel (.elems (v :: acc)) (skipWs r2)
      | ']' :: r2 => some (.arr (v :: acc).reverse, r2)
      | _ => none

/-- JSON.parse: parse a complete JSON text; none models the thrown
SyntaxError (caught by the callers of the source). -/
def jsonParse (s : List Char) : Option JValue :=
  match parseRun (s.length + 1) .value (skipWs s) with
  | some (v, r) => if skipWs r = [] then some v else none
  | none => none

/-- Strict equality test v === false on a possibly undefined value. -/
def isFalseV : Option JValue → Bool
  | some (.bool false) => true
  | _ => false

/-- Test for the JSON null value. -/
def isNullV : JValue → Bool
  | .null => true
  | _ => false

/-- The nested extraction chain parsed.content?.parts?.[0]?.text . -/
def nestedText (parsed : JValue) : Option JValue :=
  jsGet (jsIdx0 (jsGet (getF parsed (cs "content")) (cs "parts"))) (cs "text")

/-- The textDelta variable computed by transformZenGPTResponseToDataStream:
initialized to the empty string, set from the nested chain when truthy,
otherwise from response or text when one of those is truthy. -/
def textDeltaOf (parsed : JValue) : JValue :=
  if truthyO (nestedText parsed) then (nestedText parsed).getD (.str [])
  else if truthyO (getF parsed (cs "response")) || truthyO (getF parsed (cs "text")) then
    (jsOr (getF parsed (cs "response")) (getF parsed (cs "text"))).getD (.str [])
  else .str []

/-- One downstream frame enqueued by transformZenGPTResponseToDataStream:
either the completion sentinel or a text delta envelope. -/
inductive Frame where
  | done : Frame
  | delta (textDelta : JValue) : Frame

/-- JSON.stringify escaping of one string character. -/
def escChar (c : Char) : List Char :=
  if c = '"' then ['\\', '"']
  else if c = '\\' then ['\\', '\\']
  else if c = '\x08' then ['\\', 'b']
  else if c = '\x0c' then ['\\', 'f']
  else if c = '\n' then ['\\', 'n']
  else if c = '\x0d' then ['\\', 'r']
  else if c = '\t' then ['\\', 't']
  else if c.toNat < 32 then
    ['\\', 'u', '0', '0',
     (if c.toNat / 16 < 10 then Char.ofNat (48 + c.toNat / 16)
      else Char.ofNat (87 + c.toNat / 16)),
     (if c.toNat % 16 < 10 then Char.ofNat (48 + c.toNat % 16)
      else Char.ofNat (87 + c.toNat % 16))]
  else [c]

/-- Decimal digit characters of a natural number, fuel structured. -/
def natDigitsAux : Nat → Nat → List Char → List Char
  | 0, _, acc => acc
  | fuel + 1, n, acc =>
    if n < 10 then Char.ofNat (48 + n) :: acc
    else natDigitsAux fuel (n / 10) (Char.ofNat (48 + n % 10) :: acc)

/-- Decimal digit characters of a natural number. -/
def natDigits (n : Nat) : List Char := natDigitsAux (n + 1) n []

/-- Rendering of an integer. -/
def intStr (n : Int) : List Char :=
  if n < 0 then '-' :: natDigits n.natAbs else natDigits n.natAbs

/-- Rendering of the exact numeric value m times ten to the e (the float
formatting of the host language is abstracted; no claim observes it). -/
def numRender (m e : Int) : List Char :=
  if e = 0 then intStr m else intStr m ++ 'e' :: intStr e

mutual

/-- JSON.stringify of a value. -/
def jsonStringify : JValue → List Char
  | .null => cs "null"
  | .bool true => cs "true"
  | .bool false => cs "false"
  | .num m e => numRender m e
  | .str s => '"' :: (s.flatMap escChar ++ ['"'])
  | .arr xs => '[' :: (stringifyElems xs ++ [']'])
  | .obj fs => '\x7b' :: (stringifyFields fs ++ ['\x7d'])

/-- Stringify array elements, comma separated. -/
def stringifyElems : List JValue → List Char
  | [] => []
  | [x] => jsonStringify x
  | x :: y :: xs => jsonStringify x ++ ',' :: stringifyElems (y :: xs)

/-- Stringify object members, comma separated. -/
def stringifyFields : List (List Char × JValue) → List Char
  | [] => []
  | [(k, v)] => '"' :: (k.flatMap escChar ++ '"' :: ':' :: jsonStringify v)
  | (k, v) :: f :: fs =>
    ('"' :: (k.flatMap escChar ++ '"' :: ':' :: jsonStringify v)) ++
      ',' :: stringifyFields (f :: fs)

end

/-- Byte rendering of a frame as enqueued by the source (the encoder step);
the transformer below is stated on frames, whose byte output is the
concatenation of their renderings. -/
def renderFrame : Frame → List Char
  | .done => cs "data: [DONE]\n\n"
  | .delta t =>
    cs "data: " ++
      jsonStringify (.obj [(cs "type", .str (cs "text-delta")), (cs "textDelta", t)]) ++
      cs "\n\n"

/-- Frames produced for one successfully JSON parsed data payload:
optionally one text delta (only when truthy), then optionally the
completion sentinel (when the payload carries partial strictly false).
A null payload makes the property access throw; the catch handler of the
source then emits nothing for the event. -/
def extractFrames (parsed : JValue) : List Frame :=
  if isNullV parsed then []
  else
    (if truthy (textDeltaOf parsed) then [Frame.delta (textDeltaOf parsed)] else []) ++
    (if isFalseV (getF parsed (cs "partial")) then [Frame.done] else [])

/-- Frames produced for one complete line of the main loop of
transformZenGPTResponseToDataStream. -/
def framesOfLine (line : List Char) : List Frame :=
  if jsTrim line = [] then []
  else if (cs "data: ").isPrefixOf line then
    (if line.drop 6 = cs "[DONE]" then [Frame.done]
     else match jsonParse (line.drop 6) with
       | none => []
       | some parsed => extractFrames parsed)
  else []

/-- Frames produced for the residual buffer at upstream exhaustion; the
source skips a residual whose payload equals the [DONE] literal. -/
def flushFrames (buffer : List Char) : List Frame :=
  if jsTrim buffer = [] then []
  else if (cs "data: ").isPrefixOf buffer then
    (if buffer.drop 6 = cs "[DONE]" then []
     else match jsonParse (buffer.drop 6) with
       | none => []
       | some parsed => extractFrames parsed)
  else []

/-- JavaScript String.prototype.split with separator newline: the list of
segments between newlines (one more segment than newlines). -/
def splitOnNewline : List Char → List (List Char)
  | [] => [[]]
  | c :: r =>
    if c = '\n' then [] :: splitOnNewline r
    else match splitOnNewline r with
      | [] => [[c]]
      | h :: t => (c :: h) :: t

/-- Loop state of the transformer: the pending line buffer and the frames
enqueued so far. -/
structure TState where
  buffer : List Char
  out : List Frame

/-- One iteration of the read loop: append the decoded chunk to the buffer,
split on newline, keep the last segment as the new buffer and process every
complete line. -/
def processChunk (st : TState) (chunk : List Char) : TState :=
  let parts := splitOnNewline (st.buffer ++ chunk)
  { buffer := (parts.getLast?).getD [],
    out := st.out ++ (parts.dropLast).flatMap framesOfLine }

/-- The whole transformer: fold the read loop over the upstream chunks and
flush the residual buffer when the upstream is exhausted. -/
def transformZenGPTResponseToDataStream (chunks : List (List Char)) : List Frame :=
  let fin := chunks.foldl processChunk { buffer := [], out := [] }
  fin.out ++ flushFrames fin.buffer

/-- Completion sentinel test. -/
def isDone : Frame → Bool
  | .done => true
  | _ => false

/-- Number of completion sentinels in an output. -/
def countDone (fs : List Frame) : Nat := (fs.filter isDone).length

/-- Join lines with terminating newlines. -/
def linesJoin (lines : List (List Char)) : List Char :=
  lines.flatMap (fun l => l ++ ['\n'])

/-- The residual buffer left by a single chunk input. -/
def residualOf (s : List Char) : List Char :=
  ((splitOnNewline s).getLast?).getD []

/-- Character level version of the read loop, used to reason about chunk
boundaries. -/
def feedChar (st : TState) (c : Char) : TState :=
  if c = '\n' then { buffer := [], out := st.out ++ framesOfLine st.buffer }
  else { buffer := st.buffer ++ [c], out := st.out }

/-- Decoded SSE protocol event, mirroring the optional fields of the
ZenGPTStreamEvent type of the source. -/
structure ZenGPTStreamEvent where
  event : Option (List Char) := none
  data : Option (List Char) := none
  id : Option (List Char) := none
  retry : Option Int := none

/-- Number.parseInt with radix ten; none models NaN. -/
def parseIntJS (s : List Char) : Option Int :=
  let t := s.dropWhile jsWhite
  let (neg, t1) := match t with
    | '-' :: r => (true, r)
    | '+' :: r => (false, r)
    | _ => (false, t)
  let ds := t1.takeWhile Char.isDigit
  if ds = [] then none
  else some (if neg then -(Int.ofNat (digitsVal ds)) else Int.ofNat (digitsVal ds))

/-- parseSSELine of the source: trim the line first, then classify it by
prefix; a data payload equal to the [DONE] literal produces the done event,
other payloads are re-serialized when they parse as JSON and passed through
raw otherwise.  An unrecognized line yields null. -/
def parseSSELine (line : List Char) : Option ZenGPTStreamEvent :=
  let trimmed := jsTrim line
  if (cs "data: ").isPrefixOf trimmed then
    (let data := trimmed.drop 6
     if data = cs "[DONE]" then
       some { event := some (cs "done"), data := some (cs "[DONE]") }
     else match jsonParse data with
       | some parsed => some { event := some (cs "data"), data := some (jsonStringify parsed) }
       | none => some { event := some (cs "data"), data := some data })
  else if (cs "event: ").isPrefixOf trimmed then
    some { event := some (trimmed.drop 7) }
  else if (cs "id: ").isPrefixOf trimmed then
    some { id := some (trimmed.drop 4) }
  else if (cs "retry: ").isPrefixOf trimmed then
    some { retry := parseIntJS (trimmed.drop 7) }
  else none

/-- One output unit of transformStreamToSSE: the completion sentinel frame
or a message envelope frame (serialized by the encoder as a data line). -/
inductive SSEOut where
  | done : SSEOut
  | msg (payload : JValue) : SSEOut

/-- JavaScript a || b with a defaulted result. -/
def jsOrV (a : Option JValue) (b : JValue) : JValue :=
  if truthyO a then a.getD b else b

/-- The catch branch of transformSSEEvent: wrap the raw payload as a plain
text message part. -/
def plainTextMsg (now : Int) (d : List Char) : JValue :=
  .obj [(cs "id", .str (cs "msg-" ++ intStr now)),
        (cs "role", .str (cs "assistant")),
        (cs "parts", .arr [.obj [(cs "type", .str (cs "text")), (cs "text", .str d)]])]

/-- transformSSEEvent of the source.  The now argument models the Date.now
call used to mint fallback message ids.  A null JSON payload makes the
property access throw, landing in the catch branch like a parse failure. -/
def transformSSEEvent (now : Int) (e : ZenGPTStreamEvent) : Option SSEOut :=
  if e.event = some (cs "done") ∨ e.data = some (cs "[DONE]") then some .done
  else
    match e.event, e.data with
    | some ev, some d =>
      if ev = cs "data" ∧ d ≠ [] then
        match jsonParse d with
        | some JValue.null => some (.msg (plainTextMsg now d))
        | some dat =>
          some (.msg (.obj
            ([(cs "id", jsOrV (getF dat (cs "id")) (.str (cs "msg-" ++ intStr now))),
              (cs "role", .str (cs "assistant")),
              (cs "parts", jsOrV (getF dat (cs "parts"))
                (.arr [.obj [(cs "type", .str (cs "text")),
                             (cs "text", jsOrV (jsOr (getF dat (cs "response"))
                                                     (getF dat (cs "text"))) (.str []))]]))]
             ++ (if truthyO (getF dat (cs "metadata"))
                 then [(cs "metadata", (getF dat (cs "metadata")).getD .null)]
                 else []))))
        | none => some (.msg (plainTextMsg now d))
      else none
    | _, _ => none

/-- Output units produced for one non blank line of transformStreamToSSE
(also used for the residual flush, whose code is identical there). -/
def sseOutOfLine (now : Int) (line : List Char) : List SSEOut :=
  if jsTrim line = [] then []
  else match parseSSELine line with
    | some ev =>
      match transformSSEEvent now ev with
      | some o => [o]
      | none => []
    | none => []

/-- Loop state of transformStreamToSSE. -/
structure SSEState where
  buffer : List Char
  out : List SSEOut

/-- One read loop iteration of transformStreamToSSE. -/
def processSSEChunk (now : Int) (st : SSEState) (chunk : List Char) : SSEState :=
  let parts := splitOnNewline (st.buffer ++ chunk)
  { buffer := (parts.getLast?).getD [],
    out := st.out ++ (parts.dropLast).flatMap (sseOutOfLine now) }

/-- transformStreamToSSE of the source: a Response with a null body makes
the returned stream close immediately; otherwise the read loop runs over
the body chunks and the residual buffer is flushed through the same
parse and transform steps. -/
def transformStreamToSSE (now : Int) (body? : Option (List (List Char))) : List SSEOut :=
  match body? with
  | none => []
  | some chunks =>
    let fin := chunks.foldl (processSSEChunk now) { buffer := [], out := [] }
    fin.out ++ sseOutOfLine now fin.buffer

/-- The four event mock fixture of the streaming transform test script,
delivered by the script as one chunk. -/
def mockZenGPTResponse : List Char :=
  cs "data: \x7b\x22content\x22:\x7b\x22parts\x22:[\x7b\x22text\x22:\x22Hello\x22\x7d],\x22role\x22:\x22model\x22\x7d,\x22partial\x22:true,\x22invocationId\x22:\x22test-123\x22,\x22author\x22:\x22ZenGPTCentralAgent\x22,\x22actions\x22:\x7b\x22stateDelta\x22:\x7b\x7d,\x22artifactDelta\x22:\x7b\x7d,\x22requestedAuthConfigs\x22:\x7b\x7d\x7d,\x22id\x22:\x22chunk1\x22,\x22timestamp\x22:1751255536.452697\x7d\n\ndata: \x7b\x22content\x22:\x7b\x22parts\x22:[\x7b\x22text\x22:\x22! I\x27m ZenGPT\x22\x7d],\x22role\x22:\x22model\x22\x7d,\x22partial\x22:true,\x22invocationId\x22:\x22test-123\x22,\x22author\x22:\x22ZenGPTCentralAgent\x22,\x22actions\x22:\x7b\x22stateDelta\x22:\x7b\x7d,\x22artifactDelta\x22:\x7b\x7d,\x22requestedAuthConfigs\x22:\x7b\x7d\x7d,\x22id\x22:\x22chunk2\x22,\x22timestamp\x22:1751255536.452697\x7d\n\ndata: \x7b\x22content\x22:\x7b\x22parts\x22:[\x7b\x22text\x22:\x22, your AI assistant.\x22\x7d],\x22role\x22:\x22model\x22\x7d,\x22partial\x22:true,\x22invocationId\x22:\x22test-123\x22,\x22author\x22:\x22ZenGPTCentralAgent\x22,\x22actions\x22:\x7b\x22stateDelta\x22:\x7b\x7d,\x22artifactDelta\x22:\x7b\x7d,\x22requestedAuthConfigs\x22:\x7b\x7d\x7d,\x22id\x22:\x22chunk3\x22,\x22timestamp\x22:1751255536.452697\x7d\n\ndata: \x7b\x22content\x22:\x7b\x22parts\x22:[\x7b\x22text\x22:\x22Hello! I\x27m ZenGPT, your AI assistant.\x22\x7d],\x22role\x22:\x22model\x22\x7d,\x22partial\x22:false,\x22invocationId\x22:\x22test-123\x22,\x22author\x22:\x22ZenGPTCentralAgent\x22,\x22actions\x22:\x7b\x22stateDelta\x22:\x7b\x7d,\x22artifactDelta\x22:\x7b\x7d,\x22requestedAuthConfigs\x22:\x7b\x7d\x7d,\x22id\x22:\x22final\x22,\x22timestamp\x22:1751255536.452697\x7d\n\n"

/-! Basic facts about the line splitter. -/

lemma splitOnNewline_ne_nil (s : List Char) : splitOnNewline s ≠ [] := by
  induction s with
  | nil => simp [splitOnNewline]
  | cons c r ih =>
    by_cases h : c = '\n'
    · simp [splitOnNewline, h]
    · simp only [splitOnNewline, if_neg h]
      cases hs : splitOnNewline r with
      | nil => simp
      | cons a t => simp

lemma splitOnNewline_nlfree (s : List Char) (h : '\n' ∉ s) :
    splitOnNewline s = [s] := by
  induction s with
  | nil => rfl
  | cons c r ih =>
    have hc : c ≠ '\n' := by
      intro hc; exact h (by simp [hc])
    have hr : '\n' ∉ r := by
      intro hr; exact h (by simp [hr])
    simp only [splitOnNewline, if_neg hc, ih hr]

lemma splitOnNewline_append_nlfree (b s : List Char) (hd : List Char)
    (tl : List (List Char)) (hb : '\n' ∉ b) (hs : splitOnNewline s = hd :: tl) :
    splitOnNewline (b ++ s) = (b ++ hd) :: tl := by
  induction b with
  | nil => simpa using hs
  | cons c b' ih =>
    have hc : c ≠ '\n' := by
      intro hc; exact hb (by simp [hc])
    have hb' : '\n' ∉ b' := by
      intro hm; exact hb (by simp [hm])
    simp only [List.cons_append, splitOnNewline, if_neg hc, List.append_eq, ih hb']

lemma last_split_nlfree (s : List Char) :
    '\n' ∉ (((splitOnNewline s).getLast?).getD []) := by
  induction s with
  | nil => simp [splitOnNewline]
  | cons c r ih =>
    by_cases h : c = '\n'
    · simp only [splitOnNewline, if_pos h]
      cases hs : splitOnNewline r with
      | nil => exact absurd hs (splitOnNewline_ne_nil r)
      | cons a t =>
        rw [hs] at ih
        simpa [List.getLast?_cons_cons] using ih
    · simp only [splitOnNewline, if_neg h]
      cases hs : splitOnNewline r with
      | nil => exact absurd hs (splitOnNewline_ne_nil r)
      | cons a t =>
        rw [hs] at ih
        cases t with
        | nil =>
          simp only [List.getLast?_singleton, Option.getD_some] at ih ⊢
          intro hm
          rcases List.mem_cons.mp hm with h1 | h2
          · exact h h1.symm
          · exact ih h2
        | cons a2 t2 => simpa [List.getLast?_cons_cons] using ih

/-! The chunk level read loop agrees with a character level fold; this is
the heart of chunk boundary invariance. -/

lemma split_dest (s : List Char) : ∃ hd tl, splitOnNewline s = hd :: tl := by
  cases hs : splitOnNewline s with
  | nil => exact absurd hs (splitOnNewline_ne_nil s)
  | cons a t => exact ⟨a, t, rfl⟩

lemma processChunk_eq_foldl (chunk : List Char) : ∀ (st : TState),
    '\n' ∉ st.buffer → processChunk st chunk = chunk.foldl feedChar st := by
  induction chunk with
  | nil =>
    intro st h
    obtain ⟨buf, out⟩ := st
    simp only [processChunk, List.append_nil, List.foldl_nil]
    rw [splitOnNewline_nlfree buf h]
    simp
  | cons c rest ih =>
    intro st h
    obtain ⟨buf, out⟩ := st
    by_cases hc : c = '\n'
    · subst hc
      have hfeed : feedChar ⟨buf, out⟩ '\n' =
          TState.mk [] (out ++ framesOfLine buf) := by
        simp [feedChar]
      rw [List.foldl_cons, hfeed, ← ih (TState.mk [] (out ++ framesOfLine buf)) (by simp)]
      obtain ⟨hd, tl, hs⟩ := split_dest rest
      have h1 : splitOnNewline ('\n' :: rest) = [] :: hd :: tl := by
        simp [splitOnNewline, hs]
      have hsplit : splitOnNewline (buf ++ '\n' :: rest) = (buf ++ []) :: hd :: tl :=
        splitOnNewline_append_nlfree buf ('\n' :: rest) [] (hd :: tl) h h1
      rw [List.append_nil] at hsplit
      simp only [processChunk, hsplit, List.getLast?_cons_cons, List.dropLast_cons₂,
        List.flatMap_cons, List.nil_append, hs, List.append_assoc]
    · have hfeed : feedChar ⟨buf, out⟩ c = TState.mk (buf ++ [c]) out := by
        simp [feedChar, hc]
      have h2 : '\n' ∉ buf ++ [c] := by
        intro hm
        rcases List.mem_append.mp hm with h3 | h3
        · exact h h3
        · exact hc ((List.mem_singleton.mp h3).symm)
      rw [List.foldl_cons, hfeed, ← ih (TState.mk (buf ++ [c]) out) h2]
      simp only [processChunk]
      rw [show buf ++ c :: rest = (buf ++ [c]) ++ rest by simp]

lemma foldl_feedChar_nlfree (chunk : List Char) : ∀ (st : TState),
    '\n' ∉ st.buffer → '\n' ∉ (chunk.foldl feedChar st).buffer := by
  induction chunk with
  | nil => intro st h; simpa using h
  | cons c rest ih =>
    intro st h
    rw [List.foldl_cons]
    by_cases hc : c = '\n'
    · have h2 : '\n' ∉ (feedChar st c).buffer := by simp [feedChar, hc]
      exact ih (feedChar st c) h2
    · have h2 : '\n' ∉ (feedChar st c).buffer := by
        simp only [feedChar, if_neg hc]
        intro hm
        rcases List.mem_append.mp hm with h3 | h3
        · exact h h3
        · exact hc ((List.mem_singleton.mp h3).symm)
      exact ih (feedChar st c) h2

lemma foldl_processChunk_eq (chunks : List (List Char)) : ∀ (st : TState),
    '\n' ∉ st.buffer →
    chunks.foldl processChunk st = (chunks.flatten).foldl feedChar st := by
  induction chunks with
  | nil => intro st _; rfl
  | cons ch rest ih =>
    intro st h
    rw [List.foldl_cons, List.flatten_cons, List.foldl_append,
      ← processChunk_eq_foldl ch st h]
    have hnl : '\n' ∉ (processChunk st ch).buffer := by
      rw [processChunk_eq_foldl ch st h]
      exact foldl_feedChar_nlfree ch st h
    exact ih (processChunk st ch) hnl

/-- Claim C1: chunk boundary invariance of the streaming transform — for
every upstream content and every way of splitting it into successive
chunks (including one byte chunks), transformZenGPTResponseToDataStream
emits the same frame sequence as when the identical content is delivered
as a single chunk. -/
theorem chunkBoundaryInvariance (chunks : List (List Char)) :
    transformZenGPTResponseToDataStream chunks =
      transformZenGPTResponseToDataStream [chunks.flatten] := by
  unfold transformZenGPTResponseToDataStream
  rw [foldl_processChunk_eq chunks ⟨[], []⟩ (by simp),
    List.foldl_cons, List.foldl_nil,
    processChunk_eq_foldl chunks.flatten ⟨[], []⟩ (by simp)]

set_option maxRecDepth 20000 in
/-- Claim C2: on the four event mock fixture the transform outputs exactly
four text delta frames in input order (the three partial fragments and the
full final sentence, with the repeated text not deduplicated) followed by
exactly one completion frame, whose byte rendering is the literal
completion line. -/
theorem mockFixtureEndToEnd :
    transformZenGPTResponseToDataStream [mockZenGPTResponse] =
      [Frame.delta (.str (cs "Hello")),
       Frame.delta (.str (cs "! I\x27m ZenGPT")),
       Frame.delta (.str (cs ", your AI assistant.")),
       Frame.delta (.str (cs "Hello! I\x27m ZenGPT, your AI assistant.")),
       Frame.done] ∧
    renderFrame Frame.done = cs "data: [DONE]\n\n" := by
  exact ⟨by rfl, rfl⟩

/-! Facts about trimming and the data prefix. -/

lemma jsTrim_ne_nil_of_head (c : Char) (r : List Char) (hc : jsWhite c = false) :
    jsTrim (c :: r) ≠ [] := by
  intro h
  unfold jsTrim at h
  have h1 : List.dropWhile jsWhite (c :: r) = c :: r := by
    simp [List.dropWhile_cons, hc]
  rw [h1, List.reverse_eq_nil_iff, List.dropWhile_eq_nil_iff] at h
  have h2 := h c (by simp)
  simp [hc] at h2

lemma eq_data_append (line : List Char)
    (hp : (cs "data: ").isPrefixOf line = true) :
    line = cs "data: " ++ line.drop 6 := by
  have h : (cs "data: ") <+: line := by
    have := @List.isPrefixOf_iff_prefix Char _ _ (cs "data: ") line
    exact this.mp hp
  have h2 := List.prefix_iff_eq_append.mp h
  rw [show (cs "data: ").length = 6 from rfl] at h2
  exact h2.symm

lemma jsTrim_ne_nil_of_dataPrefix (line : List Char)
    (hp : (cs "data: ").isPrefixOf line = true) : jsTrim line ≠ [] := by
  rw [eq_data_append line hp]
  exact jsTrim_ne_nil_of_head 'd' (cs "ata: " ++ line.drop 6) rfl

lemma framesOfLine_parsed (line : List Char) (parsed : JValue)
    (hp : (cs "data: ").isPrefixOf line = true)
    (hne : line.drop 6 ≠ cs "[DONE]")
    (hparse : jsonParse (line.drop 6) = some parsed) :
    framesOfLine line = extractFrames parsed := by
  unfold framesOfLine
  rw [if_neg (jsTrim_ne_nil_of_dataPrefix line hp)]
  simp only [hp, if_true, if_neg hne, hparse]

/-- Claim C3: a data event whose JSON payload carries partial strictly
false and truthy (non empty) extractable text emits exactly the text delta
frame followed immediately by the completion frame, within that single
event. -/
theorem finalEventEmitsDeltaThenDone (line : List Char) (parsed : JValue)
    (hp : (cs "data: ").isPrefixOf line = true)
    (hne : line.drop 6 ≠ cs "[DONE]")
    (hparse : jsonParse (line.drop 6) = some parsed)
    (hfin : getF parsed (cs "partial") = some (.bool false))
    (htr : truthy (textDeltaOf parsed) = true) :
    framesOfLine line = [Frame.delta (textDeltaOf parsed), Frame.done] := by
  rw [framesOfLine_parsed line parsed hp hne hparse]
  have hnn : isNullV parsed = false := by
    cases parsed <;> first
      | rfl
      | (exfalso; rw [show getF JValue.null (cs "partial") = none from rfl] at hfin; exact Option.noConfusion hfin)
  have hfv : isFalseV (getF parsed (cs "partial")) = true := by rw [hfin]; rfl
  simp [extractFrames, hnn, htr, hfv]

/-- Witness for claim C3 at a concrete final event line. -/
theorem finalEventEmitsDeltaThenDoneWitness :
    framesOfLine (cs "data: \x7b\x22response\x22:\x22Bye\x22,\x22partial\x22:false\x7d") =
      [Frame.delta (.str (cs "Bye")), Frame.done] := by
  exact finalEventEmitsDeltaThenDone
    (cs "data: \x7b\x22response\x22:\x22Bye\x22,\x22partial\x22:false\x7d")
    (JValue.obj [(cs "response", .str (cs "Bye")), (cs "partial", .bool false)])
    (by rfl) (by decide) (by rfl) (by rfl) (by rfl)

/-! Processing a newline terminated sequence of newline free lines. -/

lemma splitOnNewline_linesJoin (lines : List (List Char))
    (h : ∀ l ∈ lines, '\n' ∉ l) :
    splitOnNewline (linesJoin lines) = lines ++ [[]] := by
  induction lines with
  | nil => simp [linesJoin, splitOnNewline]
  | cons l rest ih =>
    have hl : '\n' ∉ l := h l (by simp)
    have hrest : ∀ x ∈ rest, '\n' ∉ x := fun x hx => h x (by simp [hx])
    obtain ⟨hd, tl, hs⟩ := split_dest (linesJoin rest)
    have h1 : splitOnNewline ('\n' :: linesJoin rest) = [] :: hd :: tl := by
      simp [splitOnNewline, hs]
    have h2 := splitOnNewline_append_nlfree l ('\n' :: linesJoin rest) [] (hd :: tl) hl h1
    rw [List.append_nil] at h2
    have hform : linesJoin (l :: rest) = l ++ ('\n' :: linesJoin rest) := by
      simp [linesJoin]
    rw [hform, h2]
    rw [ih hrest] at hs
    rw [← hs]
    simp

lemma flushFrames_nil : flushFrames [] = [] := rfl

lemma transform_single_linesJoin (lines : List (List Char))
    (h : ∀ l ∈ lines, '\n' ∉ l) :
    transformZenGPTResponseToDataStream [linesJoin lines] =
      lines.flatMap framesOfLine := by
  unfold transformZenGPTResponseToDataStream
  rw [List.foldl_cons, List.foldl_nil]
  unfold processChunk
  simp only [List.nil_append, splitOnNewline_linesJoin lines h,
    List.getLast?_concat, List.dropLast_concat, Option.getD_some]
  rw [flushFrames_nil]
  simp

lemma countDone_append (a b : List Frame) :
    countDone (a ++ b) = countDone a + countDone b := by
  unfold countDone
  rw [List.filter_append, List.length_append]

lemma countDone_flatMap_zero (ls : List (List Char))
    (h : ∀ l ∈ ls, countDone (framesOfLine l) = 0) :
    countDone (ls.flatMap framesOfLine) = 0 := by
  induction ls with
  | nil => rfl
  | cons l rest ih =>
    rw [List.flatMap_cons, countDone_append, h l (by simp),
      ih (fun x hx => h x (by simp [hx]))]

/-! Every emitted text delta carries truthy (in particular non empty) text. -/

lemma truthy_of_delta_extract (parsed : JValue) (t : JValue)
    (h : Frame.delta t ∈ extractFrames parsed) : truthy t = true := by
  unfold extractFrames at h
  split_ifs at h with h1 h2 h3 <;>
    simp only [List.mem_append, List.mem_singleton, List.not_mem_nil] at h <;>
    rcases h with h | h <;>
    first
      | (injection h with h4; rw [← h4] at h2; exact h2)
      | exact Frame.noConfusion h
      | exact absurd h (by simp)

lemma truthy_of_delta_line (l : List Char) (t : JValue)
    (h : Frame.delta t ∈ framesOfLine l) : truthy t = true := by
  unfold framesOfLine at h
  split_ifs at h with h1 h2 h3
  · exact absurd h (by simp)
  · rw [List.mem_singleton] at h
    exact Frame.noConfusion h
  · cases hj : jsonParse (l.drop 6) with
    | none => rw [hj] at h; exact absurd h (by simp)
    | some parsed => rw [hj] at h; exact truthy_of_delta_extract parsed t h
  · exact absurd h (by simp)

lemma truthy_of_delta_flush (l : List Char) (t : JValue)
    (h : Frame.delta t ∈ flushFrames l) : truthy t = true := by
  unfold flushFrames at h
  split_ifs at h with h1 h2 h3
  · exact absurd h (by simp)
  · exact absurd h (by simp)
  · cases hj : jsonParse (l.drop 6) with
    | none => rw [hj] at h; exact absurd h (by simp)
    | some parsed => rw [hj] at h; exact truthy_of_delta_extract parsed t h
  · exact absurd h (by simp)

lemma delta_truthy_foldl (chunks : List (List Char)) : ∀ (st : TState) (t : JValue),
    (∀ u, Frame.delta u ∈ st.out → truthy u = true) →
    Frame.delta t ∈ (chunks.foldl processChunk st).out → truthy t = true := by
  induction chunks with
  | nil => intro st t h hm; exact h t hm
  | cons ch rest ih =>
    intro st t h hm
    rw [List.foldl_cons] at hm
    refine ih (processChunk st ch) t ?_ hm
    intro u hu
    unfold processChunk at hu
    simp only [List.mem_append] at hu
    rcases hu with h1 | h1
    · exact h u h1
    · obtain ⟨l, _, hl⟩ := List.mem_flatMap.mp h1
      exact truthy_of_delta_line l u hl

lemma countDone_done_singleton : countDone [Frame.done] = 1 := rfl

/-- Claim C4 counterexample: the empty upstream input produces an output
with no completion sentinel at all, so the output stream invariant as
stated (exactly one sentinel for every upstream input) fails. -/
theorem notAlwaysExactlyOneDone :
    ¬ countDone (transformZenGPTResponseToDataStream []) = 1 := by decide

/-- Claim C4 amended: for an upstream consisting of newline terminated
lines none of which triggers completion, followed by one final line whose
frames end in exactly one completion sentinel (a data [DONE] line or a
final partial false event), the output contains exactly one sentinel and
it is the last frame; moreover, for every upstream input whatsoever, every
emitted text delta frame carries truthy text — in particular a frame with
empty extracted text is never emitted. -/
theorem wellFormedOutputInvariant :
    (∀ (ls : List (List Char)) (ll : List Char) (pre : List Frame),
      (∀ l ∈ ls, '\n' ∉ l ∧ countDone (framesOfLine l) = 0) →
      '\n' ∉ ll →
      framesOfLine ll = pre ++ [Frame.done] →
      countDone pre = 0 →
      countDone (transformZenGPTResponseToDataStream [linesJoin (ls ++ [ll])]) = 1 ∧
      (transformZenGPTResponseToDataStream [linesJoin (ls ++ [ll])]).getLast? =
        some Frame.done) ∧
    (∀ (chunks : List (List Char)) (t : JValue),
      Frame.delta t ∈ transformZenGPTResponseToDataStream chunks → truthy t = true) ∧
    (∀ (chunks : List (List Char)),
      Frame.delta (.str []) ∉ transformZenGPTResponseToDataStream chunks) := by
  have hdelta : ∀ (chunks : List (List Char)) (t : JValue),
      Frame.delta t ∈ transformZenGPTResponseToDataStream chunks → truthy t = true := by
    intro chunks t hm
    unfold transformZenGPTResponseToDataStream at hm
    simp only [List.mem_append] at hm
    rcases hm with h1 | h1
    · exact delta_truthy_foldl chunks ⟨[], []⟩ t (by simp) h1
    · exact truthy_of_delta_flush _ t h1
  refine ⟨?_, hdelta, ?_⟩
  · intro ls ll pre h1 h2 h3 h4
    have hnl : ∀ l ∈ ls ++ [ll], '\n' ∉ l := by
      intro l hl
      rcases List.mem_append.mp hl with h5 | h5
      · exact (h1 l h5).1
      · rw [List.mem_singleton.mp h5]; exact h2
    rw [transform_single_linesJoin (ls ++ [ll]) hnl, List.flatMap_append]
    constructor
    · rw [countDone_append, countDone_flatMap_zero ls (fun l hl => (h1 l hl).2)]
      simp [List.flatMap_cons, h3, countDone_append, h4, countDone_done_singleton]
    · simp only [List.flatMap_cons, List.flatMap_nil, List.append_nil, h3]
      rw [← List.append_assoc]
      exact List.getLast?_concat _
  · intro chunks hm
    have := hdelta chunks (.str []) hm
    simp [truthy] at this

/-- Witness for the amended claim C4 at a concrete two line input and a
concrete emitted delta. -/
theorem wellFormedOutputInvariantWitness :
    (countDone (transformZenGPTResponseToDataStream
        [linesJoin [cs "data: \x7b\x22response\x22:\x22hi\x22\x7d", cs "data: [DONE]"]]) = 1 ∧
      (transformZenGPTResponseToDataStream
        [linesJoin [cs "data: \x7b\x22response\x22:\x22hi\x22\x7d", cs "data: [DONE]"]]).getLast? =
        some Frame.done) ∧
    truthy (.str (cs "hi")) = true :=
  ⟨wellFormedOutputInvariant.1 [cs "data: \x7b\x22response\x22:\x22hi\x22\x7d"]
      (cs "data: [DONE]") [] (by decide) (by decide) (by rfl) (by rfl),
   wellFormedOutputInvariant.2.1 [cs "data: \x7b\x22response\x22:\x22hi\x22\x7d\n"]
      (.str (cs "hi"))
      (by rw [show transformZenGPTResponseToDataStream
          [cs "data: \x7b\x22response\x22:\x22hi\x22\x7d\n"] =
          [Frame.delta (.str (cs "hi"))] from rfl]
          exact List.mem_singleton.mpr rfl)⟩

/-! The residual flush path versus ordinary line processing. -/

lemma splitOnNewline_concat_newline (s : List Char) :
    splitOnNewline (s ++ ['\n']) = splitOnNewline s ++ [[]] := by
  induction s with
  | nil => rfl
  | cons c r ih =>
    by_cases hc : c = '\n'
    · simp [splitOnNewline, hc, ih]
    · obtain ⟨hd, tl, hs⟩ := split_dest r
      rw [hs] at ih
      simp only [List.cons_append, splitOnNewline, if_neg hc, List.append_eq, ih, hs]

lemma flush_eq_framesOfLine (r : List Char) (h : r.drop 6 ≠ cs "[DONE]") :
    flushFrames r = framesOfLine r := by
  unfold flushFrames framesOfLine
  by_cases h1 : jsTrim r = []
  · rw [if_pos h1, if_pos h1]
  · rw [if_neg h1, if_neg h1]
    by_cases h2 : (cs "data: ").isPrefixOf r = true
    · simp only [h2, if_true, if_neg h]
    · simp only [Bool.not_eq_true] at h2
      simp [h2]

lemma transform_single (s : List Char) :
    transformZenGPTResponseToDataStream [s] =
      ((splitOnNewline s).dropLast).flatMap framesOfLine ++
        flushFrames (residualOf s) := by
  unfold transformZenGPTResponseToDataStream residualOf
  rw [List.foldl_cons, List.foldl_nil]
  unfold processChunk
  simp

/-- Claim C5 counterexample: an upstream ending in the unterminated
residual line data: [DONE] produces no completion frame at all (the flush
path of the source explicitly skips the [DONE] payload), refuting the
claim that the residual completion line yields the completion frame. -/
theorem residualDoneEmitsNothing :
    ¬ 0 < countDone (transformZenGPTResponseToDataStream [cs "data: [DONE]"]) := by
  decide

/-- Claim C5 amended: when the upstream terminates with a non newline
terminated residual fragment, that fragment is processed as one final
logical line producing exactly the frames a newline terminated copy would
produce, except that a residual whose payload after the data prefix is the
[DONE] literal is dropped and yields no completion frame. -/
theorem residualFlushMatchesLineExceptDone (s : List Char)
    (h : (residualOf s).drop 6 ≠ cs "[DONE]") :
    transformZenGPTResponseToDataStream [s] =
      transformZenGPTResponseToDataStream [s ++ ['\n']] := by
  rw [transform_single s, transform_single (s ++ ['\n'])]
  rw [show residualOf (s ++ ['\n']) = [] from by
    unfold residualOf
    rw [splitOnNewline_concat_newline, List.getLast?_concat]
    rfl]
  rw [show (splitOnNewline (s ++ ['\n'])).dropLast = splitOnNewline s from by
    rw [splitOnNewline_concat_newline]
    exact List.dropLast_concat]
  rw [flushFrames_nil, List.append_nil]
  obtain ⟨q, r, hqr⟩ : ∃ q r, splitOnNewline s = q ++ [r] := by
    rcases List.eq_nil_or_concat (splitOnNewline s) with h0 | ⟨q, r, h0⟩
    · exact absurd h0 (splitOnNewline_ne_nil s)
    · exact ⟨q, r, by simpa using h0⟩
  have hres : residualOf s = r := by
    unfold residualOf
    rw [hqr, List.getLast?_concat]
    rfl
  rw [hres] at h
  rw [hqr, List.dropLast_concat, hres, flush_eq_framesOfLine r h,
    List.flatMap_append]
  simp

/-- Witness for the amended claim C5 at a concrete unterminated input. -/
theorem residualFlushMatchesLineExceptDoneWitness :
    (residualOf (cs "data: \x7b\x22response\x22:\x22hi\x22\x7d")).drop 6 ≠ cs "[DONE]" ∧
    transformZenGPTResponseToDataStream [cs "data: \x7b\x22response\x22:\x22hi\x22\x7d"] =
      transformZenGPTResponseToDataStream
        [cs "data: \x7b\x22response\x22:\x22hi\x22\x7d" ++ ['\n']] :=
  ⟨by decide, residualFlushMatchesLineExceptDone
      (cs "data: \x7b\x22response\x22:\x22hi\x22\x7d") (by decide)⟩

/-- Claim C6 counterexample: the payload carrying partial false and no
text fields emits the completion frame, so the event is not a true no-op
even though all recognized text fields are absent. -/
theorem emptyTextCanStillEmitDone :
    ¬ (framesOfLine (cs "data: \x7b\x22partial\x22:false\x7d")).length = 0 := by
  decide

/-- Claim C6 amended: a data event whose payload parses with falsy
extracted text (all recognized text fields empty or absent) emits no frame
at all, provided the payload does not carry partial strictly false; a
partial false payload still emits the completion frame. -/
theorem emptyTextNoFrameUnlessFinal (line : List Char) (parsed : JValue)
    (hp : (cs "data: ").isPrefixOf line = true)
    (hne : line.drop 6 ≠ cs "[DONE]")
    (hparse : jsonParse (line.drop 6) = some parsed)
    (htxt : truthy (textDeltaOf parsed) = false)
    (hnf : isFalseV (getF parsed (cs "partial")) = false) :
    framesOfLine line = [] := by
  rw [framesOfLine_parsed line parsed hp hne hparse]
  unfold extractFrames
  by_cases hn : isNullV parsed = true
  · rw [if_pos hn]
  · simp [hn, htxt, hnf]

/-- Witness for the amended claim C6 at a concrete empty text event. -/
theorem emptyTextNoFrameUnlessFinalWitness :
    framesOfLine (cs "data: \x7b\x22text\x22:\x22\x22\x7d") = [] :=
  emptyTextNoFrameUnlessFinal (cs "data: \x7b\x22text\x22:\x22\x22\x7d")
    (JValue.obj [(cs "text", .str [])]) (by rfl) (by decide) (by rfl) (by rfl) (by rfl)

/-! Idempotence of trimming, for the line classification claims. -/

lemma dropWhile_head_false (p : Char → Bool) (l : List Char) (c : Char)
    (r : List Char) (h : List.dropWhile p l = c :: r) : p c = false := by
  have w : List.dropWhile p l ≠ [] := by rw [h]; simp
  have h1 := List.head_dropWhile_not p l w
  have h2 : (List.dropWhile p l).head w = c := by
    have h3 := congrArg List.head? h
    rw [List.head?_eq_head w] at h3
    simpa using h3
  rw [h2] at h1
  simpa using h1

lemma dropWhile_idem (p : Char → Bool) (l : List Char) :
    List.dropWhile p (List.dropWhile p l) = List.dropWhile p l := by
  cases h : List.dropWhile p l with
  | nil => rfl
  | cons c r =>
    rw [List.dropWhile_cons]
    simp [dropWhile_head_false p l c r h]

lemma jsTrim_prefix_dropWhile (l : List Char) :
    jsTrim l <+: List.dropWhile jsWhite l := by
  have h := List.reverse_prefix.mpr
    (List.dropWhile_suffix (l := (List.dropWhile jsWhite l).reverse) jsWhite)
  rw [List.reverse_reverse] at h
  exact h

lemma jsTrim_head_false (l : List Char) (c : Char) (r : List Char)
    (h : jsTrim l = c :: r) : jsWhite c = false := by
  obtain ⟨t, ht⟩ := jsTrim_prefix_dropWhile l
  rw [h] at ht
  exact dropWhile_head_false jsWhite l c (r ++ t) (by rw [← ht]; rfl)

lemma jsTrim_idem (l : List Char) : jsTrim (jsTrim l) = jsTrim l := by
  have ha : List.dropWhile jsWhite (jsTrim l) = jsTrim l := by
    cases h : jsTrim l with
    | nil => rfl
    | cons c r =>
      rw [List.dropWhile_cons]
      simp [jsTrim_head_false l c r h]
  have hb : List.dropWhile jsWhite ((jsTrim l).reverse) = (jsTrim l).reverse := by
    have h1 : (jsTrim l).reverse =
        List.dropWhile jsWhite ((List.dropWhile jsWhite l).reverse) := by
      unfold jsTrim
      rw [List.reverse_reverse]
    rw [h1]
    exact dropWhile_idem _ _
  calc jsTrim (jsTrim l)
      = (((jsTrim l).dropWhile jsWhite).reverse.dropWhile jsWhite).reverse := rfl
    _ = ((jsTrim l).reverse.dropWhile jsWhite).reverse := by rw [ha]
    _ = ((jsTrim l).reverse).reverse := by rw [hb]
    _ = jsTrim l := List.reverse_reverse _

/-- Claim C7 counterexample: in transformZenGPTResponseToDataStream the
line data: [DONE] followed by a carriage return yields no frame at all —
the raw line is classified, only the emptiness test trims — refuting that
whitespace is stripped before prefix classification for every logical
line. -/
theorem whitespaceDoneLineYieldsNothing :
    ¬ 0 < countDone (framesOfLine (cs "data: [DONE]\x0d")) := by decide

/-- Claim C7 amended: parseSSELine strips whitespace before prefix
classification (classifying a line and its trimmed form identically, so a
whitespace surrounded completion line still yields the done event there),
while the loop of transformZenGPTResponseToDataStream trims only for the
emptiness test — a trim blank line produces nothing, but a whitespace
surrounded completion line is classified on the raw characters and yields
no frame. -/
theorem trimBeforeClassify :
    (∀ line : List Char, parseSSELine line = parseSSELine (jsTrim line)) ∧
    parseSSELine (cs " data: [DONE]\x0d") =
      some (ZenGPTStreamEvent.mk (some (cs "done")) (some (cs "[DONE]")) none none) ∧
    (∀ line : List Char, jsTrim line = [] → framesOfLine line = []) ∧
    framesOfLine (cs " data: [DONE]") = [] ∧
    framesOfLine (cs "data: [DONE]\x0d") = [] := by
  refine ⟨?_, by rfl, ?_, by rfl, by rfl⟩
  · intro line
    simp only [parseSSELine, jsTrim_idem]
  · intro line h
    unfold framesOfLine
    rw [if_pos h]

/-- Witness for the amended claim C7 at concrete lines. -/
theorem trimBeforeClassifyWitness :
    parseSSELine (cs "\tdata: hi") = parseSSELine (jsTrim (cs "\tdata: hi")) ∧
    framesOfLine (cs "  ") = [] :=
  ⟨trimBeforeClassify.1 (cs "\tdata: hi"),
   trimBeforeClassify.2.2.1 (cs "  ") (by decide)⟩

/-- Claim C8: extraction precedence — the emitted text comes from the
nested content.parts[0].text field when present and non empty; otherwise
from the flat response field when present and non empty; otherwise from
the flat text field; a payload whose nested text is the empty string falls
through to the flat fields. -/
theorem extractionPrecedence :
    (∀ (parsed : JValue) (s : List Char),
      nestedText parsed = some (.str s) → s ≠ [] →
      textDeltaOf parsed = .str s) ∧
    (∀ (parsed : JValue) (r : List Char),
      (nestedText parsed = none ∨ nestedText parsed = some (.str [])) →
      getF parsed (cs "response") = some (.str r) → r ≠ [] →
      textDeltaOf parsed = .str r) ∧
    (∀ (parsed : JValue) (t : List Char),
      (nestedText parsed = none ∨ nestedText parsed = some (.str [])) →
      (getF parsed (cs "response") = none ∨
        getF parsed (cs "response") = some (.str [])) →
      getF parsed (cs "text") = some (.str t) →
      textDeltaOf parsed = .str t) := by
  refine ⟨?_, ?_, ?_⟩
  · intro parsed s h1 h2
    have htr : truthyO (nestedText parsed) = true := by
      rw [h1]; simp [truthyO, truthy, h2]
    unfold textDeltaOf
    rw [if_pos htr, h1]
    rfl
  · intro parsed r h1 h2 h3
    have hn : truthyO (nestedText parsed) = false := by
      rcases h1 with h | h <;> rw [h] <;> simp [truthyO, truthy]
    have htr : truthyO (getF parsed (cs "response")) = true := by
      rw [h2]; simp [truthyO, truthy, h3]
    unfold textDeltaOf
    rw [if_neg (by rw [hn]; exact Bool.false_ne_true)]
    rw [if_pos (show (truthyO (getF parsed (cs "response")) ||
      truthyO (getF parsed (cs "text"))) = true by rw [htr]; rfl)]
    unfold jsOr
    rw [if_pos htr, h2]
    rfl
  · intro parsed t h1 h2 h3
    have hn : truthyO (nestedText parsed) = false := by
      rcases h1 with h | h <;> rw [h] <;> simp [truthyO, truthy]
    have hr : truthyO (getF parsed (cs "response")) = false := by
      rcases h2 with h | h <;> rw [h] <;> simp [truthyO, truthy]
    unfold textDeltaOf
    rw [if_neg (by rw [hn]; exact Bool.false_ne_true)]
    by_cases ht : t = []
    · subst ht
      have htt : truthyO (getF parsed (cs "text")) = false := by
        rw [h3]; simp [truthyO, truthy]
      rw [if_neg (show ¬ (truthyO (getF parsed (cs "response")) ||
        truthyO (getF parsed (cs "text"))) = true by
          rw [hr, htt]; exact Bool.false_ne_true)]
    · have htt : truthyO (getF parsed (cs "text")) = true := by
        rw [h3]; simp [truthyO, truthy, ht]
      rw [if_pos (show (truthyO (getF parsed (cs "response")) ||
        truthyO (getF parsed (cs "text"))) = true by rw [hr, htt]; rfl)]
      unfold jsOr
      rw [if_neg (by rw [hr]; exact Bool.false_ne_true), h3]
      rfl

/-- Witness for claim C8 at three concrete payload shapes. -/
theorem extractionPrecedenceWitness :
    textDeltaOf (JValue.obj
      [(cs "content", .obj [(cs "parts", .arr [.obj [(cs "text", .str (cs "A"))]])]),
       (cs "response", .str (cs "B"))]) = .str (cs "A") ∧
    textDeltaOf (JValue.obj
      [(cs "content", .obj [(cs "parts", .arr [.obj [(cs "text", .str [])]])]),
       (cs "response", .str (cs "B")), (cs "text", .str (cs "C"))]) = .str (cs "B") ∧
    textDeltaOf (JValue.obj
      [(cs "response", .str []), (cs "text", .str (cs "C"))]) = .str (cs "C") :=
  ⟨extractionPrecedence.1 _ (cs "A") rfl (by decide),
   extractionPrecedence.2.1 _ (cs "B") (Or.inr rfl) rfl (by decide),
   extractionPrecedence.2.2 _ (cs "C") (Or.inl rfl) (Or.inr rfl) rfl⟩

/-- Claim C9: a data line whose payload is neither the [DONE] literal nor
valid JSON is recovered locally and never aborts the pipeline — in
transformZenGPTResponseToDataStream the caught parse failure contributes
no frame and the surrounding lines produce exactly the output they produce
without the malformed line, while parseSSELine passes the payload through
as literal text. -/
theorem malformedDataLineRecovered :
    (∀ line : List Char,
      (cs "data: ").isPrefixOf line = true →
      line.drop 6 ≠ cs "[DONE]" →
      jsonParse (line.drop 6) = none →
      framesOfLine line = []) ∧
    (∀ (ls1 ls2 : List (List Char)) (bad : List Char),
      (∀ l ∈ ls1, '\n' ∉ l) → (∀ l ∈ ls2, '\n' ∉ l) → '\n' ∉ bad →
      framesOfLine bad = [] →
      transformZenGPTResponseToDataStream [linesJoin (ls1 ++ bad :: ls2)] =
        transformZenGPTResponseToDataStream [linesJoin (ls1 ++ ls2)]) ∧
    (∀ line : List Char,
      (cs "data: ").isPrefixOf (jsTrim line) = true →
      (jsTrim line).drop 6 ≠ cs "[DONE]" →
      jsonParse ((jsTrim line).drop 6) = none →
      parseSSELine line =
        some (ZenGPTStreamEvent.mk (some (cs "data"))
          (some ((jsTrim line).drop 6)) none none)) := by
  refine ⟨?_, ?_, ?_⟩
  · intro line hp hne hj
    unfold framesOfLine
    rw [if_neg (jsTrim_ne_nil_of_dataPrefix line hp)]
    simp only [hp, if_true, if_neg hne, hj]
  · intro ls1 ls2 bad h1 h2 h3 hb
    have ha : ∀ l ∈ ls1 ++ bad :: ls2, '\n' ∉ l := by
      intro l hl
      rcases List.mem_append.mp hl with h4 | h4
      · exact h1 l h4
      · rcases List.mem_cons.mp h4 with h5 | h5
        · rw [h5]; exact h3
        · exact h2 l h5
    have hc : ∀ l ∈ ls1 ++ ls2, '\n' ∉ l := by
      intro l hl
      rcases List.mem_append.mp hl with h4 | h4
      · exact h1 l h4
      · exact h2 l h4
    rw [transform_single_linesJoin _ ha, transform_single_linesJoin _ hc,
      List.flatMap_append, List.flatMap_append, List.flatMap_cons, hb,
      List.nil_append]
  · intro line hp hne hj
    unfold parseSSELine
    simp only [hp, if_true, if_neg hne, hj]

/-- Witness for claim C9 at a concrete malformed payload between two well
formed events. -/
theorem malformedDataLineRecoveredWitness :
    framesOfLine (cs "data: not json") = [] ∧
    transformZenGPTResponseToDataStream
        [linesJoin [cs "data: \x7b\x22response\x22:\x22a\x22\x7d", cs "data: not json",
                    cs "data: [DONE]"]] =
      transformZenGPTResponseToDataStream
        [linesJoin [cs "data: \x7b\x22response\x22:\x22a\x22\x7d", cs "data: [DONE]"]] ∧
    parseSSELine (cs "data: not json") =
      some (ZenGPTStreamEvent.mk (some (cs "data")) (some (cs "not json")) none none) :=
  ⟨malformedDataLineRecovered.1 (cs "data: not json") (by rfl) (by decide) (by rfl),
   malformedDataLineRecovered.2.1 [cs "data: \x7b\x22response\x22:\x22a\x22\x7d"]
     [cs "data: [DONE]"] (cs "data: not json") (by decide) (by decide) (by decide)
     (by rfl),
   malformedDataLineRecovered.2.2 (cs "data: not json") (by rfl) (by decide) (by rfl)⟩

/-- Claim C10: when the upstream Response has a null body, the stream
returned by transformStreamToSSE closes immediately, emitting zero frames
and raising no error. -/
theorem nullBodyClosesImmediately (now : Int) :
    transformStreamToSSE now none = [] := rfl
